import Mathlib

/-!
Shallow embedding of the mockdns DNS responder (Go) for specification
verification.  The embedding covers the zone normalizer (`types.go`:
`data.UnmarshalJSON`, `records.UnmarshalJSON`, `rrFromMap`), the local
query handler, the proxy forwarder and the request logger (from the main
source file).  Resource records are opaque to the core: every definition
is parameterized by the record type `RR` and by the external
RR-construction collaborator `newRR` (the library's `dns.NewRR`), and by
the external exchange collaborator for the forwarder.  Go maps whose
iteration order the program observes are embedded as association lists:
one fixed iteration order, with the order-sensitive claims stated so that
they hold for the list given.
-/

namespace MockDns

/-- DNS record type codes, as in the miekg/dns library constants. -/
def TypeA : Nat := 1

def TypeNS : Nat := 2

def TypeCNAME : Nat := 5

def TypePTR : Nat := 12

def TypeMX : Nat := 15

def TypeTXT : Nat := 16

def TypeAAAA : Nat := 28

def TypeANY : Nat := 255

def TypeCAA : Nat := 257

/-- Rcode for success, `dns.RcodeSuccess`. -/
def RcodeSuccess : Nat := 0

/-- Rcode for server failure, `dns.RcodeServerFailure`. -/
def RcodeServerFailure : Nat := 2

/-- The `supportedTypes` map of the source, as an association list from
record-type name to numeric type code. -/
def supportedTypes : List (String × Nat) :=
  [("A", TypeA), ("AAAA", TypeAAAA), ("CAA", TypeCAA), ("CNAME", TypeCNAME),
   ("MX", TypeMX), ("NS", TypeNS), ("PTR", TypePTR), ("TXT", TypeTXT)]

/-- A field map of the declarative document: a `map[string]string` read
only at the four fixed keys `hostname`, `ttl`, `priority`, `value`; a key
being absent in the Go map is `none` here. -/
structure FieldMap where
  hostname : Option String
  ttl : Option String
  priority : Option String
  value : Option String
deriving Repr, DecidableEq

/-- Quoting of one character, as Go's `%q` verb renders printable ASCII
text: backslash-escape the quote and the backslash, name escapes for
newline and tab, everything else verbatim. -/
def goQuoteChar (c : Char) : String :=
  if c = '"' then "\\\""
  else if c = '\\' then "\\\\"
  else if c = '\n' then "\\n"
  else if c = '\t' then "\\t"
  else String.singleton c

/-- Embedding of `fmt.Sprintf("%q", v)` on the value strings: the Go-quoted
form, a single token opening and closing with a double quote. -/
def goQuote (s : String) : String :=
  "\"" ++ String.join (s.toList.map goQuoteChar) ++ "\""

/-- Embedding of Go's `strings.ToUpper` on the character list (ASCII case
mapping, which covers the record-type names the program compares). -/
def strToUpper (s : String) : String :=
  String.mk (s.toList.map Char.toUpper)

/-- Embedding of Go's `strings.ToLower` on the character list (ASCII case
mapping, which covers the domain names the program normalizes). -/
def strToLower (s : String) : String :=
  String.mk (s.toList.map Char.toLower)

/-- Embedding of Go's `strings.HasSuffix(v, s)`: the byte-level suffix
test, rendered on the character lists (equivalent for UTF-8 text, which
is self-synchronizing). -/
def hasSuffix (v s : String) : Bool :=
  s.toList.isSuffixOf v.toList

/-- Embedding of the library's `dns.IsFqdn`: the name ends with an
unescaped dot, i.e. a trailing dot preceded by an even number of
backslashes. -/
def IsFqdn (s : String) : Bool :=
  match s.toList.reverse with
  | [] => false
  | c :: rest => c == '.' && (rest.takeWhile (fun x => x == '\\')).length % 2 == 0

/-- Embedding of the library's `dns.Fqdn`: append a trailing dot unless the
name is already fully qualified. -/
def Fqdn (s : String) : String :=
  if IsFqdn s then s else s ++ "."

/-- An error from record construction: the offending record line and the
underlying cause returned by the RR constructor.  In the source the line
is surfaced by the diagnostic log in `rrFromMap` and the cause is the
returned error. -/
structure MalformedRecordError where
  line : String
  cause : String
deriving Repr, DecidableEq

/-- The token list built by `rrFromMap` (`types.go` lines 82-116): owner
name, TTL, class `IN`, type, the MX-only priority, then the value (quoted
for TXT). -/
def rrLineParts (defaultTTL typ fqdn : String) (m : FieldMap) : List String :=
  let parts : List String :=
    match m.hostname with
    | some v =>
        if v = "@" then [fqdn]
        else if hasSuffix v fqdn then [v]
        else [v ++ "." ++ fqdn]
    | none => [fqdn]
  let parts :=
    match m.ttl with
    | some v => parts ++ [v]
    | none => parts ++ [defaultTTL]
  let parts := parts ++ ["IN", typ]
  let parts :=
    if typ = "MX" then
      match m.priority with
      | some v => parts ++ [v]
      | none => parts
    else parts
  match m.value with
  | some v => parts ++ [if typ = "TXT" then goQuote v else v]
  | none => parts

/-- The record line `rrFromMap` hands to `dns.NewRR`: the whitespace join
of `rrLineParts`. -/
def rrLine (defaultTTL typ fqdn : String) (m : FieldMap) : String :=
  String.intercalate " " (rrLineParts defaultTTL typ fqdn m)

/-- Embedding of `records.rrFromMap`.  The collaborator `newRR` stands for
`dns.NewRR`: it may succeed with a record, succeed with no record (as
`dns.NewRR` does on blank input), or fail.  A nil field map yields neither
a record nor an error; a constructor failure is surfaced with the
offending line. -/
def rrFromMap {RR : Type} (newRR : String → Except String (Option RR))
    (defaultTTL typ fqdn : String) (m : Option FieldMap) :
    Except MalformedRecordError (Option RR) :=
  match m with
  | none => Except.ok none
  | some fm =>
      let s := rrLine defaultTTL typ fqdn fm
      match newRR s with
      | Except.ok rr => Except.ok rr
      | Except.error e => Except.error ⟨s, e⟩

/-- The type map of a record set: association list from numeric type code
to the stored records of that type, keys unique, insertion order of
records preserved. -/
abbrev TypeMap (RR : Type) : Type := List (Nat × List RR)

/-- Embedding of `recs.data[iType] = append(recs.data[iType], rr)`:
append to the sequence stored at the key, or create a singleton sequence
for a fresh key. -/
def appendRec {RR : Type} : TypeMap RR → Nat → RR → TypeMap RR
  | [], k, rr => [(k, [rr])]
  | (k', rrs) :: rest, k, rr =>
      if k' = k then (k', rrs ++ [rr]) :: rest
      else (k', rrs) :: appendRec rest k rr

/-- Embedding of the inner loop of `records.UnmarshalJSON` over one
record-type entry: upper-case the type name, skip it when unsupported,
otherwise construct each field map's record, aborting on the first
construction error and appending each constructed record. -/
def processType {RR : Type} (newRR : String → Except String (Option RR))
    (defaultTTL fqdn : String) (typ : String) :
    List (Option FieldMap) → TypeMap RR → Except MalformedRecordError (TypeMap RR)
  | [], d => Except.ok d
  | fm :: rest, d =>
      let typU := strToUpper typ
      match supportedTypes.lookup typU with
      | none => processType newRR defaultTTL fqdn typ rest d
      | some iType =>
          match rrFromMap newRR defaultTTL typU fqdn fm with
          | Except.error e => Except.error e
          | Except.ok none => processType newRR defaultTTL fqdn typ rest d
          | Except.ok (some rr) =>
              processType newRR defaultTTL fqdn typ rest (appendRec d iType rr)

/-- Embedding of `records.UnmarshalJSON` past the raw JSON decode: fold the
decoded type entries into the type map, propagating the first construction
error. -/
def recordsUnmarshal {RR : Type} (newRR : String → Except String (Option RR))
    (defaultTTL fqdn : String) :
    List (String × List (Option FieldMap)) → TypeMap RR →
    Except MalformedRecordError (TypeMap RR)
  | [], d => Except.ok d
  | (typ, fms) :: rest, d =>
      match processType newRR defaultTTL fqdn typ fms d with
      | Except.error e => Except.error e
      | Except.ok d' => recordsUnmarshal newRR defaultTTL fqdn rest d'

/-- A record set: the domain it belongs to and its type map
(`records` in `types.go`). -/
structure Records (RR : Type) where
  fqdn : String
  data : TypeMap RR

/-- The record store: association list from fully-qualified lower-cased
domain name to its record set (`data` in `types.go`). -/
abbrev Store (RR : Type) : Type := List (String × Records RR)

/-- Embedding of `d[domain] = rt` on the store: overwrite the entry for the
key, or append a fresh one. -/
def insertStore {RR : Type} : Store RR → String → Records RR → Store RR
  | [], k, v => [(k, v)]
  | (k', v') :: rest, k, v =>
      if k' = k then (k, v) :: rest
      else (k', v') :: insertStore rest k v

/-- Embedding of `data.UnmarshalJSON` past the raw JSON decode: for each
document entry, normalize the domain key to its lower-cased fully
qualified form, unmarshal its record set starting from an empty type map,
and store it; the first error aborts the whole load with no resulting
store. -/
def dataUnmarshal {RR : Type} (newRR : String → Except String (Option RR))
    (defaultTTL : String) :
    List (String × List (String × List (Option FieldMap))) → Store RR →
    Except MalformedRecordError (Store RR)
  | [], d => Except.ok d
  | (dk, tm) :: rest, d =>
      let domain := Fqdn (strToLower dk)
      match recordsUnmarshal newRR defaultTTL domain tm ([] : TypeMap RR) with
      | Except.error e => Except.error e
      | Except.ok rd =>
          dataUnmarshal newRR defaultTTL rest (insertStore d domain ⟨domain, rd⟩)

/-- One DNS question: owner name and queried type. -/
structure Question where
  name : String
  qtype : Nat
deriving Repr, DecidableEq

/-- The in-memory DNS message of the protocol collaborator, restricted to
the fields the core reads or writes: header id, response flag, status
code, and the question, answer, authority and additional sections. -/
structure Msg (RR : Type) where
  id : Nat
  response : Bool
  rcode : Nat
  question : List Question
  answer : List RR
  ns : List RR
  extra : List RR

/-- A fresh message, `new(dns.Msg)`. -/
def newMsg {RR : Type} : Msg RR :=
  ⟨0, false, RcodeSuccess, [], [], [], []⟩

/-- Embedding of the library's `Msg.SetReply`: copy the request id, set the
response flag, reset the status to success, and copy the first question
when the request has one. -/
def setReply {RR : Type} (m r : Msg RR) : Msg RR :=
  { m with
    id := r.id
    response := true
    rcode := RcodeSuccess
    question :=
      match r.question with
      | [] => m.question
      | q :: _ => [q] }

/-- Embedding of the library's `Msg.SetRcode`: `SetReply` followed by
setting the status code. -/
def setRcode {RR : Type} (m r : Msg RR) (rc : Nat) : Msg RR :=
  { setReply m r with rcode := rc }

/-- The answer-section step of `handler` for one question: on an ANY query
append every stored record of every type, otherwise append the records
stored under the requested type when present. -/
def answerStep {RR : Type} (recs : Records RR) (m : Msg RR) (question : Question) :
    Msg RR :=
  if question.qtype = TypeANY then
    recs.data.foldl (fun m p => { m with answer := m.answer ++ p.2 }) m
  else
    match recs.data.lookup question.qtype with
    | some rrs => { m with answer := m.answer ++ rrs }
    | none => m

/-- Embedding of the local query `handler`: build a reply, fill the answer
section per question, then unconditionally append the NS records to the
authority section and the A then AAAA records to the additional section.
Returns the message written to the client together with the request
message as the handler leaves it. -/
def handler {RR : Type} (recs : Records RR) (r : Msg RR) : Msg RR × Msg RR :=
  let m := setReply newMsg r
  let m := r.question.foldl (answerStep recs) m
  let m :=
    match recs.data.lookup TypeNS with
    | some rrs => { m with ns := m.ns ++ rrs }
    | none => m
  let m :=
    match recs.data.lookup TypeA with
    | some rrs => { m with extra := m.extra ++ rrs }
    | none => m
  let m :=
    match recs.data.lookup TypeAAAA with
    | some rrs => { m with extra := m.extra ++ rrs }
    | none => m
  (m, r)

/-- The result of one upstream exchange, `client.Exchange`: a response on
success, or an error possibly accompanied by a partial message. -/
inductive ExchRes (RR : Type) where
  | ok (m : Msg RR)
  | fail (m : Option (Msg RR)) (e : String)

/-- The upstream loop of `proxyHandler`: try each server address in order,
overwriting the running message/error pair, and stop at the first
exchange that returns no error. -/
def tryExchange {RR : Type} (exchange : String → ExchRes RR) :
    List String → Option (Msg RR) × Option String →
    Option (Msg RR) × Option String
  | [], acc => acc
  | addr :: rest, _ =>
      match exchange addr with
      | ExchRes.ok m => (some m, none)
      | ExchRes.fail mo e => tryExchange exchange rest (mo, some e)

/-- Embedding of `proxyHandler`: when forwarding is enabled, try the
configured servers (each joined with the shared port) in order; if an
error remains, synthesize a server-failure reply and mark the request's
status as server failure; otherwise write the successful response
unmodified.  Returns the written message and the request as left by the
handler. -/
def proxyHandler {RR : Type} (proxyEnabled : Bool) (servers : List String)
    (port : String) (exchange : String → ExchRes RR) (r : Msg RR) :
    Msg RR × Msg RR :=
  let init : Option (Msg RR) × Option String := (none, some "not proxied")
  let res :=
    if proxyEnabled then
      tryExchange exchange (servers.map (fun ns => ns ++ ":" ++ port)) init
    else init
  match res.2 with
  | some _ =>
      let m := res.1.getD newMsg
      (setRcode m r RcodeServerFailure, { r with rcode := RcodeServerFailure })
  | none => (res.1.getD newMsg, r)

/-- The outcome category tag of the request logger: the colored `O`, `P`
and `T` markers of the source. -/
inductive Tag where
  | override
  | proxied
  | terminal
deriving Repr, DecidableEq

/-- One log line of `logRequest`: the category tag, the success flag (true
for the `S` marker, false for `F`), and the question logged. -/
structure LogLine where
  tag : Tag
  success : Bool
  q : Question
deriving Repr, DecidableEq

/-- Embedding of `logRequest`: run the wrapped handler, then, when
verbose, classify the request — locally answered, proxied, or terminal —
and emit one line per question, inferring success from the request
message's status field after the handler ran. -/
def logRequest {RR : Type} (verbose proxyEnabled : Bool) (isLocal : Bool)
    (f : Msg RR → Msg RR × Msg RR) (r : Msg RR) :
    (Msg RR × Msg RR) × List LogLine :=
  let res := f r
  let r' := res.2
  let lines :=
    if verbose then
      let t :=
        if isLocal then Tag.override
        else if proxyEnabled then Tag.proxied
        else Tag.terminal
      let ok := r'.rcode == 0
      r'.question.map (fun q => ⟨t, ok, q⟩)
    else []
  (res, lines)

/-- Every stored record of the record set, across all types, in the type
map's iteration order, with the stored order preserved within a type. -/
def allRecords {RR : Type} (recs : Records RR) : List RR :=
  recs.data.foldl (fun a p => a ++ p.2) []

/-- The answer records for one question as the specification describes
them: on an ANY query every stored record across all types; otherwise
exactly the records stored under the requested type, empty when that type
is absent. -/
def specAnswerOne {RR : Type} (recs : Records RR) (q : Question) : List RR :=
  if q.qtype = TypeANY then allRecords recs
  else (recs.data.lookup q.qtype).getD []

theorem foldl_append_init {RR : Type} (l : TypeMap RR) (x : List RR) :
    l.foldl (fun a p => a ++ p.2) x = x ++ l.foldl (fun a p => a ++ p.2) [] := by
  induction l generalizing x with
  | nil => simp
  | cons p rest ih =>
      simp only [List.foldl_cons, List.nil_append]
      rw [ih (x ++ p.2), ih p.2]
      simp

theorem anyFold_eq {RR : Type} (l : TypeMap RR) (m : Msg RR) :
    l.foldl (fun m p => { m with answer := m.answer ++ p.2 }) m =
      { m with answer := m.answer ++ l.foldl (fun a p => a ++ p.2) [] } := by
  induction l generalizing m with
  | nil => simp
  | cons p rest ih =>
      simp only [List.foldl_cons, List.nil_append]
      rw [ih, foldl_append_init rest p.2]
      simp

theorem answerStep_eq {RR : Type} (recs : Records RR) (m : Msg RR) (q : Question) :
    answerStep recs m q = { m with answer := m.answer ++ specAnswerOne recs q } := by
  unfold answerStep specAnswerOne allRecords
  by_cases hq : q.qtype = TypeANY
  · simp [hq, anyFold_eq]
  · simp only [hq, if_false]
    cases recs.data.lookup q.qtype <;> simp

theorem answerFold_eq {RR : Type} (recs : Records RR) (qs : List Question)
    (m : Msg RR) :
    qs.foldl (answerStep recs) m =
      { m with answer := m.answer ++ (qs.map (specAnswerOne recs)).flatten } := by
  induction qs generalizing m with
  | nil => simp
  | cons q rest ih =>
      simp only [List.foldl_cons, answerStep_eq]
      rw [ih]
      simp

theorem handler_fst {RR : Type} (recs : Records RR) (r : Msg RR) :
    (handler recs r).1 =
      { id := r.id, response := true, rcode := RcodeSuccess,
        question := match r.question with | [] => [] | q :: _ => [q],
        answer := (r.question.map (specAnswerOne recs)).flatten,
        ns := (recs.data.lookup TypeNS).getD [],
        extra :=
          (recs.data.lookup TypeA).getD [] ++
            (recs.data.lookup TypeAAAA).getD [] } := by
  cases hns : recs.data.lookup TypeNS <;>
    cases ha : recs.data.lookup TypeA <;>
      cases haaaa : recs.data.lookup TypeAAAA <;>
        cases hq : r.question <;>
          simp [handler, answerFold_eq, answerStep_eq, setReply, newMsg,
            hns, ha, haaaa, hq]

theorem handler_snd {RR : Type} (recs : Records RR) (r : Msg RR) :
    (handler recs r).2 = r := rfl

/-- C1: for every query and record set, the handler's answer section is,
question by question, all stored records of every type for an ANY
question and exactly the records stored under the requested type
otherwise (empty when absent), and the response keeps the success
status. -/
theorem c1_answer_section {RR : Type} (recs : Records RR) (r : Msg RR) :
    (handler recs r).1.answer = (r.question.map (specAnswerOne recs)).flatten ∧
      (handler recs r).1.rcode = RcodeSuccess := by
  rw [handler_fst]
  exact ⟨rfl, rfl⟩

/-- C2: for every query handled locally, regardless of the questions, the
authority section is exactly the stored NS records and the additional
section is exactly the stored A records followed by the stored AAAA
records, each appended once. -/
theorem c2_authority_additional {RR : Type} (recs : Records RR) (r : Msg RR) :
    (handler recs r).1.ns = (recs.data.lookup TypeNS).getD [] ∧
      (handler recs r).1.extra =
        (recs.data.lookup TypeA).getD [] ++
          (recs.data.lookup TypeAAAA).getD [] := by
  rw [handler_fst]
  exact ⟨rfl, rfl⟩

/-- C10: the local handler leaves the inbound request message unchanged,
so when the request came in with status 0 the logger classifies every
question of a locally answered query as a success. -/
theorem c10_local_request_logged_success {RR : Type} (proxyEnabled : Bool)
    (recs : Records RR) (r : Msg RR) :
    (handler recs r).2 = r ∧
      (r.rcode = 0 →
        (logRequest true proxyEnabled true (handler recs) r).2 =
          r.question.map (fun q => ⟨Tag.override, true, q⟩)) := by
  refine ⟨rfl, fun h => ?_⟩
  simp [logRequest, handler_snd, h]

/-- Witness for C10 at a concrete record set and request. -/
theorem c10_local_request_logged_success_witness :
    (handler (⟨"a.", [(TypeA, [5])]⟩ : Records Nat)
        ⟨7, false, 0, [⟨"a.", TypeTXT⟩], [], [], []⟩).2 =
      ⟨7, false, 0, [⟨"a.", TypeTXT⟩], [], [], []⟩ ∧
      (logRequest true true true (handler (⟨"a.", [(TypeA, [5])]⟩ : Records Nat))
          ⟨7, false, 0, [⟨"a.", TypeTXT⟩], [], [], []⟩).2 =
        [⟨Tag.override, true, ⟨"a.", TypeTXT⟩⟩] :=
  ⟨(c10_local_request_logged_success true ⟨"a.", [(TypeA, [5])]⟩
      ⟨7, false, 0, [⟨"a.", TypeTXT⟩], [], [], []⟩).1,
   (c10_local_request_logged_success true ⟨"a.", [(TypeA, [5])]⟩
      ⟨7, false, 0, [⟨"a.", TypeTXT⟩], [], [], []⟩).2 rfl⟩

/-- The owner name as the specification words it: the hostname field if
present — the domain itself for the `@` wildcard, the value unchanged
when it already ends with the domain name, otherwise the value with a dot
and the domain name appended — and the domain itself when the hostname
field is absent. -/
def specOwnerName (fqdn : String) (fm : FieldMap) : String :=
  match fm.hostname with
  | none => fqdn
  | some v =>
      if v = "@" then fqdn
      else if hasSuffix v fqdn then v
      else v ++ "." ++ fqdn

theorem rrLineParts_eq (defaultTTL typ fqdn : String) (fm : FieldMap) :
    rrLineParts defaultTTL typ fqdn fm =
      [specOwnerName fqdn fm, fm.ttl.getD defaultTTL, "IN", typ] ++
        (if typ = "MX" then fm.priority.toList else []) ++
        (fm.value.map (fun v => if typ = "TXT" then goQuote v else v)).toList := by
  obtain ⟨h, t, p, v⟩ := fm
  cases h <;> cases t <;> cases p <;> cases v <;>
    by_cases hmx : typ = "MX" <;>
      simp [rrLineParts, specOwnerName, hmx] <;>
        split_ifs <;> simp

/-- C3: for every field map the record line handed to the RR constructor is
the whitespace join of the owner name, the ttl field or the default TTL,
the literal IN and the type name, the priority field exactly when the
type is MX and the field is present, and the value field if present —
quoted as one token exactly when the type is TXT; a priority field on a
non-MX type is ignored without error. -/
theorem c3_record_line (defaultTTL typ fqdn : String) (fm : FieldMap) :
    rrLine defaultTTL typ fqdn fm =
      String.intercalate " "
        ([specOwnerName fqdn fm, fm.ttl.getD defaultTTL, "IN", typ] ++
          (if typ = "MX" then fm.priority.toList else []) ++
          (fm.value.map (fun v => if typ = "TXT" then goQuote v else v)).toList) ∧
      (typ ≠ "MX" →
        rrLine defaultTTL typ fqdn fm =
          rrLine defaultTTL typ fqdn { fm with priority := none }) := by
  constructor
  · rw [rrLine, rrLineParts_eq]
  · intro hmx
    rw [rrLine, rrLine, rrLineParts_eq, rrLineParts_eq]
    simp [hmx, specOwnerName]

/-- Witness for C3: a priority field on an A record changes nothing. -/
theorem c3_record_line_witness :
    rrLine "3600" "A" "x." ⟨none, none, some "9", some "10.0.0.1"⟩ =
      rrLine "3600" "A" "x." ⟨none, none, none, some "10.0.0.1"⟩ :=
  (c3_record_line "3600" "A" "x." ⟨none, none, some "9", some "10.0.0.1"⟩).2
    (by decide)

/-- C4: the owner name (the first token of the record line) is the domain
itself when the hostname field is absent or equal to `@`, the hostname
value unchanged when it already ends with the domain name, and otherwise
the hostname value with a dot and the domain name appended. -/
theorem c4_owner_name (defaultTTL typ fqdn : String) (fm : FieldMap) :
    (fm.hostname = none →
      (rrLineParts defaultTTL typ fqdn fm).head? = some fqdn) ∧
    (fm.hostname = some "@" →
      (rrLineParts defaultTTL typ fqdn fm).head? = some fqdn) ∧
    (∀ v, fm.hostname = some v → v ≠ "@" → hasSuffix v fqdn = true →
      (rrLineParts defaultTTL typ fqdn fm).head? = some v) ∧
    (∀ v, fm.hostname = some v → v ≠ "@" → hasSuffix v fqdn = false →
      (rrLineParts defaultTTL typ fqdn fm).head? = some (v ++ "." ++ fqdn)) := by
  refine ⟨fun h => ?_, fun h => ?_, fun v h hv hs => ?_, fun v h hv hs => ?_⟩
  · simp [rrLineParts_eq, specOwnerName, h]
  · simp [rrLineParts_eq, specOwnerName, h]
  · simp [rrLineParts_eq, specOwnerName, h, hv, hs]
  · simp [rrLineParts_eq, specOwnerName, h, hv, hs]

/-- Witness for C4 at concrete field maps: an absent hostname, the `@`
wildcard, an already-qualified hostname, and a relative hostname. -/
theorem c4_owner_name_witness :
    (rrLineParts "3600" "A" "x." ⟨none, none, none, none⟩).head? = some "x." ∧
    (rrLineParts "3600" "A" "x." ⟨some "@", none, none, none⟩).head? = some "x." ∧
    (rrLineParts "3600" "A" "x." ⟨some "w.x.", none, none, none⟩).head? =
      some "w.x." ∧
    (rrLineParts "3600" "A" "x." ⟨some "w", none, none, none⟩).head? =
      some ("w" ++ "." ++ "x.") :=
  ⟨(c4_owner_name "3600" "A" "x." ⟨none, none, none, none⟩).1 rfl,
   (c4_owner_name "3600" "A" "x." ⟨some "@", none, none, none⟩).2.1 rfl,
   (c4_owner_name "3600" "A" "x." ⟨some "w.x.", none, none, none⟩).2.2.1 "w.x."
     rfl (by decide) (by decide),
   (c4_owner_name "3600" "A" "x." ⟨some "w", none, none, none⟩).2.2.2 "w"
     rfl (by decide) (by decide)⟩

theorem tryExchange_failing_run {RR : Type} (exchange : String → ExchRes RR)
    (l : List String) :
    ∀ (rest : List String) (acc : Option (Msg RR) × Option String),
      acc.2.isSome = true →
      (∀ a ∈ l, ∃ mo e, exchange a = ExchRes.fail mo e) →
      ∃ acc', acc'.2.isSome = true ∧
        tryExchange exchange (l ++ rest) acc = tryExchange exchange rest acc' := by
  induction l with
  | nil => exact fun rest acc hacc _ => ⟨acc, hacc, rfl⟩
  | cons a l ih =>
      intro rest acc hacc hfail
      obtain ⟨mo, e, hx⟩ := hfail a (List.mem_cons_self a l)
      have step : tryExchange exchange ((a :: l) ++ rest) acc =
          tryExchange exchange (l ++ rest) (mo, some e) := by
        simp [tryExchange, hx]
      obtain ⟨acc', h1, h2⟩ :=
        ih rest (mo, some e) rfl (fun b hb => hfail b (List.mem_cons_of_mem a hb))
      exact ⟨acc', h1, step.trans h2⟩

/-- C6: with forwarding enabled the forwarder tries the upstream addresses
in configured order, stops at the first address whose exchange succeeds,
and writes that upstream's response unmodified, leaving the request
unchanged. -/
theorem c6_first_success_unmodified {RR : Type} (pre post : List String)
    (good port : String) (exchange : String → ExchRes RR) (m r : Msg RR)
    (hfail : ∀ ns ∈ pre, ∃ mo e, exchange (ns ++ ":" ++ port) = ExchRes.fail mo e)
    (hgood : exchange (good ++ ":" ++ port) = ExchRes.ok m) :
    proxyHandler true (pre ++ good :: post) port exchange r = (m, r) := by
  have hmap : (pre ++ good :: post).map (fun ns => ns ++ ":" ++ port) =
      pre.map (fun ns => ns ++ ":" ++ port) ++
        (good ++ ":" ++ port) :: post.map (fun ns => ns ++ ":" ++ port) := by
    simp
  have hfail' : ∀ a ∈ pre.map (fun ns => ns ++ ":" ++ port),
      ∃ mo e, exchange a = ExchRes.fail mo e := by
    intro a ha
    obtain ⟨ns, hns, rfl⟩ := List.mem_map.mp ha
    exact hfail ns hns
  obtain ⟨acc', -, h2⟩ :=
    tryExchange_failing_run exchange (pre.map (fun ns => ns ++ ":" ++ port))
      ((good ++ ":" ++ port) :: post.map (fun ns => ns ++ ":" ++ port))
      (none, some "not proxied") rfl hfail'
  have hres : tryExchange exchange
      (pre.map (fun ns => ns ++ ":" ++ port) ++
        (good ++ ":" ++ port) :: post.map (fun ns => ns ++ ":" ++ port))
      (none, some "not proxied") = (some m, none) := by
    rw [h2]
    simp [tryExchange, hgood]
  simp [proxyHandler, hres]

/-- Witness for C6: with upstreams `[bad, good]`, the good upstream's
response is written unmodified. -/
theorem c6_first_success_unmodified_witness :
    proxyHandler true (["bad"] ++ "good" :: []) "53"
        (fun a => if a = "good:53" then ExchRes.ok (⟨9, true, 0, [], [], [], []⟩ : Msg Nat)
                  else ExchRes.fail none "e")
        ⟨7, false, 0, [], [], [], []⟩ =
      (⟨9, true, 0, [], [], [], []⟩, ⟨7, false, 0, [], [], [], []⟩) :=
  c6_first_success_unmodified ["bad"] [] "good" "53"
    (fun a => if a = "good:53" then ExchRes.ok ⟨9, true, 0, [], [], [], []⟩
              else ExchRes.fail none "e")
    ⟨9, true, 0, [], [], [], []⟩ ⟨7, false, 0, [], [], [], []⟩
    (by
      intro ns hns
      rw [List.mem_singleton] at hns
      subst hns
      exact ⟨none, "e", by simp⟩)
    (by simp)

/-- C7: whenever forwarding is disabled, the upstream list is empty, or
every upstream exchange fails, the forwarder writes a response with
server-failure status and also sets the request message's status field to
server failure. -/
theorem c7_failure_paths {RR : Type} (proxyEnabled : Bool)
    (servers : List String) (port : String) (exchange : String → ExchRes RR)
    (r : Msg RR)
    (h : proxyEnabled = false ∨ servers = [] ∨
      ∀ ns ∈ servers, ∃ mo e, exchange (ns ++ ":" ++ port) = ExchRes.fail mo e) :
    (proxyHandler proxyEnabled servers port exchange r).1.rcode =
        RcodeServerFailure ∧
      (proxyHandler proxyEnabled servers port exchange r).2.rcode =
        RcodeServerFailure := by
  rcases h with h | h | h
  · subst h
    exact ⟨rfl, rfl⟩
  · subst h
    cases proxyEnabled <;> exact ⟨rfl, rfl⟩
  · cases hp : proxyEnabled
    · exact ⟨rfl, rfl⟩
    · have hfail' : ∀ a ∈ servers.map (fun ns => ns ++ ":" ++ port),
          ∃ mo e, exchange a = ExchRes.fail mo e := by
        intro a ha
        obtain ⟨ns, hns, rfl⟩ := List.mem_map.mp ha
        exact h ns hns
      obtain ⟨acc', h1, h2⟩ :=
        tryExchange_failing_run exchange
          (servers.map (fun ns => ns ++ ":" ++ port)) []
          (none, some "not proxied") rfl hfail'
      obtain ⟨e, he⟩ := Option.isSome_iff_exists.mp h1
      have hres : tryExchange exchange
          (servers.map (fun ns => ns ++ ":" ++ port))
          (none, some "not proxied") = acc' := by
        rw [← List.append_nil (servers.map (fun ns => ns ++ ":" ++ port)), h2]
        rfl
      simp [proxyHandler, hres, he, setRcode, setReply]

/-- Witness for C7: two upstreams that both fail yield a server-failure
response and mark the request as a server failure. -/
theorem c7_failure_paths_witness :
    (proxyHandler true ["b1", "b2"] "53"
        (fun _ => (ExchRes.fail none "e" : ExchRes Nat))
        ⟨7, false, 0, [], [], [], []⟩).1.rcode = RcodeServerFailure ∧
      (proxyHandler true ["b1", "b2"] "53"
          (fun _ => (ExchRes.fail none "e" : ExchRes Nat))
          ⟨7, false, 0, [], [], [], []⟩).2.rcode = RcodeServerFailure :=
  c7_failure_paths true ["b1", "b2"] "53" (fun _ => ExchRes.fail none "e")
    ⟨7, false, 0, [], [], [], []⟩
    (Or.inr (Or.inr (fun _ _ => ⟨none, "e", rfl⟩)))

theorem rrFromMap_error_inv {RR : Type} (newRR : String → Except String (Option RR))
    (defaultTTL typ fqdn : String) (fm : Option FieldMap) (e : MalformedRecordError)
    (h : rrFromMap newRR defaultTTL typ fqdn fm = Except.error e) :
    newRR e.line = Except.error e.cause := by
  cases fm with
  | none => simp [rrFromMap] at h
  | some fm =>
      simp only [rrFromMap] at h
      cases hx : newRR (rrLine defaultTTL typ fqdn fm) with
      | ok rr => rw [hx] at h; exact absurd h (by simp)
      | error err =>
          rw [hx] at h
          cases h
          exact hx

theorem processType_error_inv {RR : Type} (newRR : String → Except String (Option RR))
    (defaultTTL fqdn typ : String) (fms : List (Option FieldMap)) :
    ∀ (d : TypeMap RR) (e : MalformedRecordError),
      processType newRR defaultTTL fqdn typ fms d = Except.error e →
      newRR e.line = Except.error e.cause := by
  induction fms with
  | nil => intro d e h; simp [processType] at h
  | cons fm rest ih =>
      intro d e h
      simp only [processType] at h
      cases hl : supportedTypes.lookup (strToUpper typ) with
      | none => rw [hl] at h; exact ih d e h
      | some iType =>
          rw [hl] at h
          cases hr : rrFromMap newRR defaultTTL (strToUpper typ) fqdn fm with
          | error e' =>
              rw [hr] at h
              cases h
              exact rrFromMap_error_inv newRR defaultTTL (strToUpper typ) fqdn fm e hr
          | ok orr =>
              rw [hr] at h
              cases orr with
              | none => exact ih d e h
              | some rr => exact ih (appendRec d iType rr) e h

theorem recordsUnmarshal_error_inv {RR : Type}
    (newRR : String → Except String (Option RR)) (defaultTTL fqdn : String)
    (tm : List (String × List (Option FieldMap))) :
    ∀ (d : TypeMap RR) (e : MalformedRecordError),
      recordsUnmarshal newRR defaultTTL fqdn tm d = Except.error e →
      newRR e.line = Except.error e.cause := by
  induction tm with
  | nil => intro d e h; simp [recordsUnmarshal] at h
  | cons p rest ih =>
      intro d e h
      simp only [recordsUnmarshal] at h
      cases hp : processType newRR defaultTTL fqdn p.1 p.2 d with
      | error e' =>
          rw [hp] at h
          cases h
          exact processType_error_inv newRR defaultTTL fqdn p.1 p.2 d e hp
      | ok d' => rw [hp] at h; exact ih d' e h

theorem dataUnmarshal_error_inv {RR : Type}
    (newRR : String → Except String (Option RR)) (defaultTTL : String)
    (doc : List (String × List (String × List (Option FieldMap)))) :
    ∀ (st : Store RR) (e : MalformedRecordError),
      dataUnmarshal newRR defaultTTL doc st = Except.error e →
      newRR e.line = Except.error e.cause := by
  induction doc with
  | nil => intro st e h; simp [dataUnmarshal] at h
  | cons p rest ih =>
      intro st e h
      simp only [dataUnmarshal] at h
      cases hp : recordsUnmarshal newRR defaultTTL (Fqdn (strToLower p.1)) p.2
          ([] : TypeMap RR) with
      | error e' =>
          rw [hp] at h
          cases h
          exact recordsUnmarshal_error_inv newRR defaultTTL (Fqdn (strToLower p.1))
            p.2 [] e hp
      | ok rd => rw [hp] at h; exact ih _ e h

theorem processType_error_of_mem {RR : Type}
    (newRR : String → Except String (Option RR)) (defaultTTL fqdn typ : String)
    (fms : List (Option FieldMap)) (fm : Option FieldMap) (iType : Nat)
    (e0 : MalformedRecordError)
    (hsup : supportedTypes.lookup (strToUpper typ) = some iType)
    (hmem : fm ∈ fms)
    (herr : rrFromMap newRR defaultTTL (strToUpper typ) fqdn fm = Except.error e0) :
    ∀ d : TypeMap RR, ∃ e, processType newRR defaultTTL fqdn typ fms d =
      Except.error e := by
  induction fms with
  | nil => cases hmem
  | cons fm' rest ih =>
      intro d
      rcases List.mem_cons.mp hmem with heq | hmem'
      · subst heq
        exact ⟨e0, by simp [processType, hsup, herr]⟩
      · cases hr : rrFromMap newRR defaultTTL (strToUpper typ) fqdn fm' with
        | error e' => exact ⟨e', by simp [processType, hsup, hr]⟩
        | ok orr =>
            cases orr with
            | none =>
                obtain ⟨e, he⟩ := ih hmem' d
                exact ⟨e, by simp [processType, hsup, hr, he]⟩
            | some rr =>
                obtain ⟨e, he⟩ := ih hmem' (appendRec d iType rr)
                exact ⟨e, by simp [processType, hsup, hr, he]⟩

theorem recordsUnmarshal_error_of_mem {RR : Type}
    (newRR : String → Except String (Option RR)) (defaultTTL fqdn : String)
    (tm : List (String × List (Option FieldMap))) (typ : String)
    (fms : List (Option FieldMap)) (fm : Option FieldMap) (iType : Nat)
    (e0 : MalformedRecordError)
    (hment : (typ, fms) ∈ tm)
    (hsup : supportedTypes.lookup (strToUpper typ) = some iType)
    (hmem : fm ∈ fms)
    (herr : rrFromMap newRR defaultTTL (strToUpper typ) fqdn fm = Except.error e0) :
    ∀ d : TypeMap RR, ∃ e, recordsUnmarshal newRR defaultTTL fqdn tm d =
      Except.error e := by
  induction tm with
  | nil => cases hment
  | cons p rest ih =>
      intro d
      rcases List.mem_cons.mp hment with heq | hment'
      · obtain ⟨e, he⟩ := processType_error_of_mem newRR defaultTTL fqdn typ fms
          fm iType e0 hsup hmem herr d
        refine ⟨e, ?_⟩
        rw [← heq]
        simp [recordsUnmarshal, he]
      · cases hp : processType newRR defaultTTL fqdn p.1 p.2 d with
        | error e' => exact ⟨e', by simp [recordsUnmarshal, hp]⟩
        | ok d' =>
            obtain ⟨e, he⟩ := ih hment' d'
            exact ⟨e, by simp [recordsUnmarshal, hp, he]⟩

/-- C5: a document containing a field map (of a supported type) whose
record line the RR constructor rejects fails to load as a whole: the
result is a single error carrying the offending line and the
constructor's cause, and no store — partial or otherwise — is
produced. -/
theorem c5_malformed_aborts_load {RR : Type}
    (newRR : String → Except String (Option RR)) (defaultTTL : String)
    (doc : List (String × List (String × List (Option FieldMap))))
    (dk : String) (tm : List (String × List (Option FieldMap)))
    (typ : String) (fms : List (Option FieldMap)) (fm : Option FieldMap)
    (iType : Nat) (e0 : MalformedRecordError)
    (hmemd : (dk, tm) ∈ doc)
    (hment : (typ, fms) ∈ tm)
    (hsup : supportedTypes.lookup (strToUpper typ) = some iType)
    (hmem : fm ∈ fms)
    (herr : rrFromMap newRR defaultTTL (strToUpper typ) (Fqdn (strToLower dk)) fm =
      Except.error e0) :
    ∃ e : MalformedRecordError,
      dataUnmarshal newRR defaultTTL doc ([] : Store RR) = Except.error e ∧
        newRR e.line = Except.error e.cause ∧
        ∀ st : Store RR, dataUnmarshal newRR defaultTTL doc [] ≠ Except.ok st := by
  have main : ∀ st : Store RR, ∃ e, dataUnmarshal newRR defaultTTL doc st =
      Except.error e := by
    induction doc with
    | nil => cases hmemd
    | cons p rest ih =>
        intro st
        rcases List.mem_cons.mp hmemd with heq | hmemd'
        · obtain ⟨e, he⟩ := recordsUnmarshal_error_of_mem newRR defaultTTL
            (Fqdn (strToLower dk)) tm typ fms fm iType e0 hment hsup hmem herr []
          refine ⟨e, ?_⟩
          rw [← heq]
          simp [dataUnmarshal, he]
        · cases hp : recordsUnmarshal newRR defaultTTL (Fqdn (strToLower p.1)) p.2
              ([] : TypeMap RR) with
          | error e' => exact ⟨e', by simp [dataUnmarshal, hp]⟩
          | ok rd =>
              obtain ⟨e, he⟩ := ih hmemd'
                (insertStore st (Fqdn (strToLower p.1)) ⟨Fqdn (strToLower p.1), rd⟩)
              exact ⟨e, by simp [dataUnmarshal, hp, he]⟩
  obtain ⟨e, he⟩ := main []
  exact ⟨e, he, dataUnmarshal_error_inv newRR defaultTTL doc [] e he,
    fun st hok => by rw [he] at hok; cases hok⟩

/-- Witness for C5: a one-record document whose record line the
constructor rejects makes the whole load fail. -/
theorem c5_malformed_aborts_load_witness :
    ∃ e : MalformedRecordError,
      dataUnmarshal
          (fun _ : String => (Except.error "parse" : Except String (Option String)))
          "3600" [("a.test.", [("A", [some ⟨none, none, none, some "bad"⟩])])]
          [] = Except.error e ∧
        (fun _ : String => (Except.error "parse" : Except String (Option String)))
            e.line = Except.error e.cause ∧
        ∀ st : Store String,
          dataUnmarshal
              (fun _ : String =>
                (Except.error "parse" : Except String (Option String)))
              "3600"
              [("a.test.", [("A", [some ⟨none, none, none, some "bad"⟩])])] [] ≠
            Except.ok st :=
  c5_malformed_aborts_load
    (fun _ : String => (Except.error "parse" : Except String (Option String)))
    "3600"
    [("a.test.", [("A", [some ⟨none, none, none, some "bad"⟩])])]
    "a.test." [("A", [some ⟨none, none, none, some "bad"⟩])]
    "A" [some ⟨none, none, none, some "bad"⟩]
    (some ⟨none, none, none, some "bad"⟩) TypeA
    ⟨"a.test. 3600 IN A bad", "parse"⟩
    (List.mem_singleton.mpr rfl) (List.mem_singleton.mpr rfl)
    rfl (List.mem_singleton.mpr rfl) rfl

/-- The invariant that every key of a type map holds a nonempty record
sequence. -/
abbrev typeMapNE {RR : Type} (d : TypeMap RR) : Prop :=
  ∀ p ∈ d, p.2 ≠ []

theorem appendRec_NE {RR : Type} (d : TypeMap RR) (k : Nat) (rr : RR)
    (h : typeMapNE d) : typeMapNE (appendRec d k rr) := by
  induction d with
  | nil =>
      intro p hp
      simp [appendRec] at hp
      subst hp
      simp
  | cons q rest ih =>
      intro p hp
      simp only [appendRec] at hp
      by_cases hk : q.1 = k
      · rw [if_pos hk] at hp
        rcases List.mem_cons.mp hp with heq | hmem
        · subst heq; simp
        · exact h p (List.mem_cons_of_mem q hmem)
      · rw [if_neg hk] at hp
        rcases List.mem_cons.mp hp with heq | hmem
        · subst heq; exact h q (List.mem_cons_self q rest)
        · exact ih (fun x hx => h x (List.mem_cons_of_mem q hx)) p hmem

theorem processType_NE {RR : Type} (newRR : String → Except String (Option RR))
    (defaultTTL fqdn typ : String) (fms : List (Option FieldMap)) :
    ∀ (d d' : TypeMap RR), typeMapNE d →
      processType newRR defaultTTL fqdn typ fms d = Except.ok d' →
      typeMapNE d' := by
  induction fms with
  | nil =>
      intro d d' hd h
      simp only [processType] at h
      cases h
      exact hd
  | cons fm rest ih =>
      intro d d' hd h
      simp only [processType] at h
      cases hl : supportedTypes.lookup (strToUpper typ) with
      | none => rw [hl] at h; exact ih d d' hd h
      | some iType =>
          rw [hl] at h
          cases hr : rrFromMap newRR defaultTTL (strToUpper typ) fqdn fm with
          | error e => rw [hr] at h; cases h
          | ok orr =>
              rw [hr] at h
              cases orr with
              | none => exact ih d d' hd h
              | some rr =>
                  exact ih (appendRec d iType rr) d'
                    (appendRec_NE d iType rr hd) h

theorem recordsUnmarshal_NE {RR : Type}
    (newRR : String → Except String (Option RR)) (defaultTTL fqdn : String)
    (tm : List (String × List (Option FieldMap))) :
    ∀ (d d' : TypeMap RR), typeMapNE d →
      recordsUnmarshal newRR defaultTTL fqdn tm d = Except.ok d' →
      typeMapNE d' := by
  induction tm with
  | nil =>
      intro d d' hd h
      simp only [recordsUnmarshal] at h
      cases h
      exact hd
  | cons p rest ih =>
      intro d d' hd h
      simp only [recordsUnmarshal] at h
      cases hp : processType newRR defaultTTL fqdn p.1 p.2 d with
      | error e => rw [hp] at h; cases h
      | ok dmid =>
          rw [hp] at h
          exact ih dmid d'
            (processType_NE newRR defaultTTL fqdn p.1 p.2 d dmid hd hp) h

theorem insertStore_mem {RR : Type} (st : Store RR) (k : String)
    (v : Records RR) (p : String × Records RR) (hp : p ∈ insertStore st k v) :
    p ∈ st ∨ p = (k, v) := by
  induction st with
  | nil =>
      simp [insertStore] at hp
      exact Or.inr hp
  | cons q rest ih =>
      simp only [insertStore] at hp
      by_cases hk : q.1 = k
      · rw [if_pos hk] at hp
        rcases List.mem_cons.mp hp with heq | hmem
        · exact Or.inr heq
        · exact Or.inl (List.mem_cons_of_mem q hmem)
      · rw [if_neg hk] at hp
        rcases List.mem_cons.mp hp with heq | hmem
        · exact Or.inl (heq ▸ List.mem_cons_self q rest)
        · rcases ih hmem with h | h
          · exact Or.inl (List.mem_cons_of_mem q h)
          · exact Or.inr h

theorem dataUnmarshal_NE {RR : Type}
    (newRR : String → Except String (Option RR)) (defaultTTL : String)
    (doc : List (String × List (String × List (Option FieldMap)))) :
    ∀ (st st' : Store RR), (∀ p ∈ st, typeMapNE p.2.data) →
      dataUnmarshal newRR defaultTTL doc st = Except.ok st' →
      ∀ p ∈ st', typeMapNE p.2.data := by
  induction doc with
  | nil =>
      intro st st' hst h
      simp only [dataUnmarshal] at h
      cases h
      exact hst
  | cons q rest ih =>
      intro st st' hst h
      simp only [dataUnmarshal] at h
      cases hq : recordsUnmarshal newRR defaultTTL (Fqdn (strToLower q.1)) q.2
          ([] : TypeMap RR) with
      | error e => rw [hq] at h; cases h
      | ok rd =>
          rw [hq] at h
          refine ih _ st' ?_ h
          intro p hp
          rcases insertStore_mem st (Fqdn (strToLower q.1)) ⟨Fqdn (strToLower q.1), rd⟩
              p hp with hmem | heq
          · exact hst p hmem
          · subst heq
            exact recordsUnmarshal_NE newRR defaultTTL (Fqdn (strToLower q.1)) q.2
              [] rd (by intro x hx; cases hx) hq

/-- C8: after a successful normalization every type map key holds a
nonempty record sequence, and a record-type name outside the supported
enumeration (compared after upper-casing) is skipped silently: its entry
produces no error and contributes no records. -/
theorem c8_nonempty_and_unsupported_skipped {RR : Type}
    (newRR : String → Except String (Option RR)) (defaultTTL : String) :
    (∀ (doc : List (String × List (String × List (Option FieldMap))))
        (st : Store RR),
      dataUnmarshal newRR defaultTTL doc [] = Except.ok st →
      ∀ p ∈ st, ∀ q ∈ p.2.data, q.2 ≠ []) ∧
    (∀ (typ fqdn : String) (fms : List (Option FieldMap)) (d : TypeMap RR),
      supportedTypes.lookup (strToUpper typ) = none →
      processType newRR defaultTTL fqdn typ fms d = Except.ok d) := by
  constructor
  · intro doc st h p hp
    exact dataUnmarshal_NE newRR defaultTTL doc [] st
      (by intro x hx; cases hx) h p hp
  · intro typ fqdn fms d hl
    induction fms with
    | nil => simp [processType]
    | cons fm rest ih => simp [processType, hl, ih]

/-- Witness for C8: a one-NS-record document loads with a nonempty NS
sequence only, and an SRV entry is skipped without error. -/
theorem c8_nonempty_and_unsupported_skipped_witness :
    (∀ p ∈ [("a.test.",
        (⟨"a.test.", [(TypeNS, ["a.test. 3600 IN NS ns1.test."])]⟩ :
          Records String))],
      ∀ q ∈ p.2.data, q.2 ≠ []) ∧
    processType (fun s : String => (Except.ok (some s) :
        Except String (Option String))) "3600" "a.test."
        "SRV" [some ⟨none, none, none, some "v"⟩] [] = Except.ok [] :=
  ⟨(c8_nonempty_and_unsupported_skipped (fun s : String =>
      (Except.ok (some s) : Except String (Option String))) "3600").1
      [("a.test.", [("NS", [some ⟨none, none, none, some "ns1.test."⟩])])]
      [("a.test.", ⟨"a.test.", [(TypeNS, ["a.test. 3600 IN NS ns1.test."])]⟩)]
      rfl,
   (c8_nonempty_and_unsupported_skipped (fun s : String =>
      (Except.ok (some s) : Except String (Option String))) "3600").2
      "SRV" "a.test." [some ⟨none, none, none, some "v"⟩] [] rfl⟩

theorem processType_congr {RR : Type} (newRR : String → Except String (Option RR))
    (defaultTTL fqdn tn tn' : String) (fms : List (Option FieldMap))
    (h : strToUpper tn' = strToUpper tn) :
    ∀ d : TypeMap RR, processType newRR defaultTTL fqdn tn fms d =
      processType newRR defaultTTL fqdn tn' fms d := by
  induction fms with
  | nil => intro d; rfl
  | cons fm rest ih =>
      intro d
      simp only [processType, h]
      cases supportedTypes.lookup (strToUpper tn) with
      | none => exact ih d
      | some iType =>
          cases rrFromMap newRR defaultTTL (strToUpper tn) fqdn fm with
          | error e => rfl
          | ok orr =>
              cases orr with
              | none => exact ih d
              | some rr => exact ih (appendRec d iType rr)

theorem recordsUnmarshal_congr {RR : Type}
    (newRR : String → Except String (Option RR)) (defaultTTL fqdn : String)
    (tm₁ tm₂ : List (String × List (Option FieldMap))) (tn tn' : String)
    (fms : List (Option FieldMap)) (h : strToUpper tn' = strToUpper tn) :
    ∀ d : TypeMap RR,
      recordsUnmarshal newRR defaultTTL fqdn (tm₁ ++ (tn, fms) :: tm₂) d =
        recordsUnmarshal newRR defaultTTL fqdn (tm₁ ++ (tn', fms) :: tm₂) d := by
  induction tm₁ with
  | nil =>
      intro d
      simp only [List.nil_append, recordsUnmarshal]
      rw [processType_congr newRR defaultTTL fqdn tn tn' fms h d]
  | cons p rest ih =>
      intro d
      simp only [List.cons_append, recordsUnmarshal]
      cases processType newRR defaultTTL fqdn p.1 p.2 d with
      | error e => rfl
      | ok d' => exact ih d'

theorem dataUnmarshal_keys {RR : Type}
    (newRR : String → Except String (Option RR)) (defaultTTL : String)
    (doc : List (String × List (String × List (Option FieldMap)))) :
    ∀ (st st' : Store RR), dataUnmarshal newRR defaultTTL doc st = Except.ok st' →
      ∀ p ∈ st', p ∈ st ∨ ∃ q ∈ doc, p.1 = Fqdn (strToLower q.1) := by
  induction doc with
  | nil =>
      intro st st' h p hp
      simp only [dataUnmarshal] at h
      cases h
      exact Or.inl hp
  | cons q0 rest ih =>
      intro st st' h p hp
      simp only [dataUnmarshal] at h
      cases hq : recordsUnmarshal newRR defaultTTL (Fqdn (strToLower q0.1)) q0.2
          ([] : TypeMap RR) with
      | error e => rw [hq] at h; cases h
      | ok rd =>
          rw [hq] at h
          rcases ih _ st' h p hp with hmem | ⟨q, hq1, hq2⟩
          · rcases insertStore_mem st (Fqdn (strToLower q0.1))
                ⟨Fqdn (strToLower q0.1), rd⟩ p hmem with hin | heq
            · exact Or.inl hin
            · exact Or.inr ⟨q0, List.mem_cons_self q0 rest, by rw [heq]⟩
          · exact Or.inr ⟨q, List.mem_cons_of_mem q0 hq1, hq2⟩

/-- C9: normalization is case-insensitive — the keys of a loaded store are
the lower-cased fully-qualified forms of the document's domain keys, and
changing the casing of a domain key or of a record-type name (any change
preserving the lower-cased, respectively upper-cased, form) yields the
same record store. -/
theorem c9_case_insensitive {RR : Type}
    (newRR : String → Except String (Option RR)) (defaultTTL : String) :
    (∀ (doc : List (String × List (String × List (Option FieldMap))))
        (st' : Store RR),
      dataUnmarshal newRR defaultTTL doc [] = Except.ok st' →
      ∀ p ∈ st', ∃ q ∈ doc, p.1 = Fqdn (strToLower q.1)) ∧
    (∀ doc₁ doc₂ (dk dk' : String) tm, strToLower dk' = strToLower dk →
      dataUnmarshal newRR defaultTTL (doc₁ ++ (dk, tm) :: doc₂) [] =
        dataUnmarshal newRR defaultTTL (doc₁ ++ (dk', tm) :: doc₂) []) ∧
    (∀ doc₁ doc₂ (dk : String) tm₁ tm₂ (tn tn' : String) fms,
      strToUpper tn' = strToUpper tn →
      dataUnmarshal newRR defaultTTL
          (doc₁ ++ (dk, tm₁ ++ (tn, fms) :: tm₂) :: doc₂) [] =
        dataUnmarshal newRR defaultTTL
          (doc₁ ++ (dk, tm₁ ++ (tn', fms) :: tm₂) :: doc₂) []) := by
  refine ⟨?_, ?_, ?_⟩
  · intro doc st' h p hp
    rcases dataUnmarshal_keys newRR defaultTTL doc [] st' h p hp with hmem | hex
    · cases hmem
    · exact hex
  · intro doc₁ doc₂ dk dk' tm h
    have main : ∀ st : Store RR,
        dataUnmarshal newRR defaultTTL (doc₁ ++ (dk, tm) :: doc₂) st =
          dataUnmarshal newRR defaultTTL (doc₁ ++ (dk', tm) :: doc₂) st := by
      induction doc₁ with
      | nil =>
          intro st
          simp only [List.nil_append, dataUnmarshal, h]
      | cons p rest ih =>
          intro st
          simp only [List.cons_append, dataUnmarshal]
          cases recordsUnmarshal newRR defaultTTL (Fqdn (strToLower p.1)) p.2
              ([] : TypeMap RR) with
          | error e => rfl
          | ok rd => exact ih _
    exact main []
  · intro doc₁ doc₂ dk tm₁ tm₂ tn tn' fms h
    have main : ∀ st : Store RR,
        dataUnmarshal newRR defaultTTL
            (doc₁ ++ (dk, tm₁ ++ (tn, fms) :: tm₂) :: doc₂) st =
          dataUnmarshal newRR defaultTTL
            (doc₁ ++ (dk, tm₁ ++ (tn', fms) :: tm₂) :: doc₂) st := by
      induction doc₁ with
      | nil =>
          intro st
          simp only [List.nil_append, dataUnmarshal]
          rw [recordsUnmarshal_congr newRR defaultTTL (Fqdn (strToLower dk))
            tm₁ tm₂ tn tn' fms h]
      | cons p rest ih =>
          intro st
          simp only [List.cons_append, dataUnmarshal]
          cases recordsUnmarshal newRR defaultTTL (Fqdn (strToLower p.1)) p.2
              ([] : TypeMap RR) with
          | error e => rfl
          | ok rd => exact ih _
    exact main []

/-- Witness for C9: a concrete store's key is the normalized domain key,
and re-casing the domain key or the type name leaves the load result
unchanged. -/
theorem c9_case_insensitive_witness :
    (∀ p ∈ [("a.test.",
        (⟨"a.test.", [(TypeNS, ["a.test. 3600 IN NS ns1.test."])]⟩ :
          Records String))],
      ∃ q ∈ [("A.Test", [("ns", [some (⟨none, none, none, some "ns1.test."⟩ :
          FieldMap)])])],
        p.1 = Fqdn (strToLower q.1)) ∧
    dataUnmarshal (fun s : String => (Except.ok (some s) :
          Except String (Option String))) "3600"
        ([] ++ ("a.Test", [("NS", [some ⟨none, none, none, some "v."⟩])]) :: [])
        [] =
      dataUnmarshal (fun s : String => Except.ok (some s)) "3600"
        ([] ++ ("A.TEST", [("NS", [some ⟨none, none, none, some "v."⟩])]) :: [])
        [] ∧
    dataUnmarshal (fun s : String => (Except.ok (some s) :
          Except String (Option String))) "3600"
        ([] ++ ("a.test", [] ++ ("ns", [some (⟨none, none, none, some "v."⟩ :
          FieldMap)]) :: []) :: []) [] =
      dataUnmarshal (fun s : String => Except.ok (some s)) "3600"
        ([] ++ ("a.test", [] ++ ("NS", [some ⟨none, none, none, some "v."⟩]) :: [])
          :: []) [] :=
  ⟨(c9_case_insensitive (fun s : String => Except.ok (some s)) "3600").1
      [("A.Test", [("ns", [some ⟨none, none, none, some "ns1.test."⟩])])]
      [("a.test.", ⟨"a.test.", [(TypeNS, ["a.test. 3600 IN NS ns1.test."])]⟩)]
      rfl,
   (c9_case_insensitive (fun s : String => Except.ok (some s)) "3600").2.1
      [] [] "a.Test" "A.TEST" [("NS", [some ⟨none, none, none, some "v."⟩])]
      rfl,
   (c9_case_insensitive (fun s : String => Except.ok (some s)) "3600").2.2
      [] [] "a.test" [] [] "ns" "NS" [some ⟨none, none, none, some "v."⟩]
      rfl⟩

end MockDns
